import Mathlib

/-!
Verification development for the `catcare` repository: a browser-local
health-tracking dashboard for a recovering cat (`src/App.tsx`,
`src/types.ts`, `src/components/Charts.tsx`, and the Gemini chat service).

The embedding conventions:
* JavaScript numbers are modelled as `ℚ` (the values appearing in the
  program are decimal literals; no float-specific behaviour is relied on).
* Epoch-millisecond timestamps are modelled as `Int`.
* A parsed JSON backup document is modelled by `ImportDoc`: for each key the
  reader code may look at, a `JsonField` records whether the key is absent,
  present with JSON `null`, or present with a value of the shape the backup
  writer produces.  JavaScript truthiness for such a field: arrays and
  objects are always truthy, `null` and a missing key are falsy.
* `JSON.parse` of the file text is modelled as an `Except Unit ImportDoc`
  oracle handed to the import handler (`.error` = the parse threw).
* Calls to `alert(...)` are modelled by returning the alerted string.
* The local-midnight computation `new Date(y, m, d).getTime()` (time-zone
  dependent) is modelled by an abstract day-key function `Int → Int`
  (for `dailyIntakeData`) or an abstract `startOfDay` bound (for
  `getDailyTotal`), passed as a parameter.
-/

namespace CatCare

/-- The `LogCategory` enumeration from `src/types.ts`. -/
inductive LogCategory where
  | glucose
  | ketone
  | feeding
  | saline
  | meds
deriving DecidableEq, Repr

/-- The category-to-unit switch from `handleSaveLog` in `src/App.tsx`
(`Units.MG_DL`, `Units.MMOL_L`, `Units.ML`, `Units.PILL`). -/
def unitFor : LogCategory → String
  | .glucose => "mg/dL"
  | .ketone => "mmol/L"
  | .feeding => "ml"
  | .saline => "ml"
  | .meds => "顆/粒"

/-- The `LogEntry` record from `src/types.ts`. -/
structure LogEntry where
  id : String
  timestamp : Int
  category : LogCategory
  value : ℚ
  unit : String
  note : String
deriving DecidableEq, Repr

/-- The `AppSettings` record: its shape is fixed by `DEFAULT_SETTINGS` in
`src/App.tsx` and by the admin settings form. -/
structure AppSettings where
  glucoseLow : ℚ
  glucoseHigh : ℚ
  ketoneWarning : ℚ
  ketoneDanger : ℚ
  dailyFeedingTarget : ℚ
  dailySalineTarget : ℚ
deriving DecidableEq, Repr

/-- The `DEFAULT_SETTINGS` constant from `src/App.tsx`. -/
def DEFAULT_SETTINGS : AppSettings :=
  { glucoseLow := 70
    glucoseHigh := 250
    ketoneWarning := 0.6
    ketoneDanger := 1.5
    dailyFeedingTarget := 0
    dailySalineTarget := 0 }

/-- A possibly-partial settings object, as found under the `settings` key of
an imported JSON document: each field may be present or missing. -/
structure SettingsPatch where
  glucoseLow : Option ℚ := none
  glucoseHigh : Option ℚ := none
  ketoneWarning : Option ℚ := none
  ketoneDanger : Option ℚ := none
  dailyFeedingTarget : Option ℚ := none
  dailySalineTarget : Option ℚ := none
deriving DecidableEq, Repr

/-- The object spread `{ ...base, ...p }` from `handleImportData`: every field
present in the patch wins, every missing field falls back to `base`. -/
def mergeSettings (base : AppSettings) (p : SettingsPatch) : AppSettings :=
  { glucoseLow := p.glucoseLow.getD base.glucoseLow
    glucoseHigh := p.glucoseHigh.getD base.glucoseHigh
    ketoneWarning := p.ketoneWarning.getD base.ketoneWarning
    ketoneDanger := p.ketoneDanger.getD base.ketoneDanger
    dailyFeedingTarget := p.dailyFeedingTarget.getD base.dailyFeedingTarget
    dailySalineTarget := p.dailySalineTarget.getD base.dailySalineTarget }

/-- The serialization of a full settings object, as `JSON.stringify` writes it
in `handleExportData`: every field present. -/
def settingsToPatch (st : AppSettings) : SettingsPatch :=
  { glucoseLow := some st.glucoseLow
    glucoseHigh := some st.glucoseHigh
    ketoneWarning := some st.ketoneWarning
    ketoneDanger := some st.ketoneDanger
    dailyFeedingTarget := some st.dailyFeedingTarget
    dailySalineTarget := some st.dailySalineTarget }

/-- Models the value found under one key of a parsed JSON object: the key may
be absent, present holding JSON `null`, or present holding a value of the
shape the backup writer produces.  Under JavaScript truthiness (the `if
(data.logs)` / `if (data.settings)` tests in `handleImportData`) only the
`value` case is truthy: arrays and objects are always truthy, while `null`
and `undefined` (absent key) are falsy. -/
inductive JsonField (α : Type) where
  | absent : JsonField α
  | null : JsonField α
  | value : α → JsonField α
deriving DecidableEq, Repr

/-- A parsed JSON backup document, restricted to the keys the import handler
and the claims look at.  A successfully parsed document with none of these
keys (for example the JSON text `"5"` or `"{}"`) is represented with all
fields `absent`. -/
structure ImportDoc where
  logs : JsonField (List LogEntry) := .absent
  entries : JsonField (List LogEntry) := .absent
  settings : JsonField SettingsPatch := .absent
deriving DecidableEq, Repr

/-- The two React state atoms of `App`: the entry list (`logs`) and the
settings object. -/
structure AppState where
  logs : List LogEntry
  settings : AppSettings
deriving DecidableEq, Repr

/-- The success string alerted by `handleImportData`. -/
def importSuccessMsg : String := "資料匯入成功！"

/-- The failure string alerted by `handleImportData` when `JSON.parse`
throws. -/
def importFailureMsg : String := "資料格式錯誤，無法匯入。"

/-- The `reader.onload` body of `handleImportData` in `src/App.tsx`:

```js
try {
  const data = JSON.parse(content);
  if (data.logs) setLogs(data.logs);
  if (data.settings) setSettings({ ...DEFAULT_SETTINGS, ...data.settings });
  alert('資料匯入成功！');
} catch (err) {
  alert('資料格式錯誤，無法匯入。');
}
```

The parse outcome is passed in as `parsed`; the returned string is the
alerted message.  Note the reader tests `data.logs` (JS truthiness), never
`data.entries`. -/
def handleImportData (parsed : Except Unit ImportDoc) (s : AppState) :
    AppState × String :=
  match parsed with
  | .error _ => (s, importFailureMsg)
  | .ok data =>
    let s1 : AppState :=
      match data.logs with
      | .value l => { s with logs := l }
      | _ => s
    let s2 : AppState :=
      match data.settings with
      | .value p => { s1 with settings := mergeSettings DEFAULT_SETTINGS p }
      | _ => s1
    (s2, importSuccessMsg)

/-- The JSON document written by `handleExportData` in `src/App.tsx`:
`JSON.stringify({ logs, settings }, null, 2)` — a document whose `logs` key
holds the full entry list and whose `settings` key holds the full settings
object; there is no `entries` key. -/
def handleExportData (s : AppState) : ImportDoc :=
  { logs := .value s.logs
    entries := .absent
    settings := .value (settingsToPatch s.settings) }

/-- Descending-by-timestamp order on adjacent pairs: each earlier element's
timestamp is at least the next element's. -/
def SortedDesc (l : List LogEntry) : Prop :=
  List.Chain' (fun a b => b.timestamp ≤ a.timestamp) l

/-- The `getStatusColor` helper from `src/App.tsx`, with the settings state it
closes over passed explicitly:

```js
const getStatusColor = (category, value, isBg = false) => {
  if (category === LogCategory.GLUCOSE) {
    if (value < settings.glucoseLow) return isBg ? '...red...' : 'text-red-600';
    if (value > settings.glucoseHigh) return isBg ? '...orange...' : 'text-orange-600';
    return isBg ? 'bg-white border-gray-100' : 'text-blue-600';
  }
  if (category === LogCategory.KETONE) {
    if (value >= settings.ketoneDanger) return isBg ? '...red...' : 'text-red-600';
    if (value >= settings.ketoneWarning) return isBg ? '...orange...' : 'text-orange-600';
    return isBg ? 'bg-white border-gray-100' : 'text-purple-600';
  }
  return isBg ? 'bg-white border-gray-100' : 'text-gray-700';
};
``` -/
def getStatusColor (settings : AppSettings) (category : LogCategory) (value : ℚ)
    (isBg : Bool) : String :=
  if category = .glucose then
    if value < settings.glucoseLow then
      if isBg then "bg-red-50 border-red-100 text-red-700" else "text-red-600"
    else if settings.glucoseHigh < value then
      if isBg then "bg-orange-50 border-orange-100 text-orange-700" else "text-orange-600"
    else
      if isBg then "bg-white border-gray-100" else "text-blue-600"
  else if category = .ketone then
    if settings.ketoneDanger ≤ value then
      if isBg then "bg-red-50 border-red-100 text-red-700" else "text-red-600"
    else if settings.ketoneWarning ≤ value then
      if isBg then "bg-orange-50 border-orange-100 text-orange-700" else "text-orange-600"
    else
      if isBg then "bg-white border-gray-100" else "text-purple-600"
  else
    if isBg then "bg-white border-gray-100" else "text-gray-700"

/-- The `getDailyTotal` helper from `src/App.tsx`, with the local-midnight
bound `new Date(y, m, d).getTime()` passed explicitly as `startOfDay`:

```js
return logs
  .filter(l => l.category === cat && l.timestamp >= startOfDay)
  .reduce((sum, curr) => sum + curr.value, 0);
``` -/
def getDailyTotal (logs : List LogEntry) (cat : LogCategory) (startOfDay : Int) : ℚ :=
  (logs.filter (fun l => l.category == cat && decide (startOfDay ≤ l.timestamp))).foldl
    (fun acc curr => acc + curr.value) 0

/-- Stable descending-by-timestamp insertion: the inserted element goes before
the first kept element whose timestamp it does not lose to, matching the
order produced by the stable `Array.prototype.sort` comparator
`(a, b) => b.timestamp - a.timestamp`. -/
def insertDesc (e : LogEntry) : List LogEntry → List LogEntry
  | [] => [e]
  | x :: xs => if x.timestamp ≤ e.timestamp then e :: x :: xs else x :: insertDesc e xs

/-- Sorting by timestamp descending, modelling
`arr.sort((a, b) => b.timestamp - a.timestamp)` from `handleSaveLog`. -/
def sortByTimestampDesc : List LogEntry → List LogEntry
  | [] => []
  | x :: xs => insertDesc x (sortByTimestampDesc xs)

/-- The `handleSaveLog` handler from `src/App.tsx`, with the form state and
clock values passed explicitly.  `parsedValue` stands for
`parseFloat(inputValue)`, `newId` for `Date.now().toString()` and
`entryTimestamp` for `new Date(entryDate).getTime()`:

```js
if (!selectedCategory || !inputValue) return;
let unit = ...switch on category...;
const newLog = { id, timestamp, category, value, unit, note };
setLogs(prev => [newLog, ...prev].sort((a, b) => b.timestamp - a.timestamp));
``` -/
def handleSaveLog (selectedCategory : Option LogCategory) (inputValue : String)
    (newId : String) (entryTimestamp : Int) (parsedValue : ℚ) (inputNote : String)
    (logs : List LogEntry) : List LogEntry :=
  match selectedCategory with
  | none => logs
  | some cat =>
    if inputValue = "" then logs
    else
      sortByTimestampDesc
        ({ id := newId, timestamp := entryTimestamp, category := cat,
           value := parsedValue, unit := unitFor cat, note := inputNote } :: logs)

/-- One element of the daily-intake chart series built by `dailyIntakeData` in
`src/components/Charts.tsx`: the local-midnight day key and the per-day
feeding and saline sums.  The presentational `date` display string
(`toLocaleDateString`) is omitted; it is derived from `timestamp` alone. -/
structure IntakeDay where
  timestamp : Int
  feeding : ℚ
  saline : ℚ
deriving DecidableEq, Repr

/-- The category test guarding the bucketing loop:
`log.category === FEEDING || log.category === SALINE`. -/
def isIntakeCat (c : LogCategory) : Bool :=
  c == .feeding || c == .saline

/-- The per-bucket mutation
`if (log.category === FEEDING) entry.feeding += log.value;
 if (log.category === SALINE) entry.saline += log.value;`
applied to the bucket stored under day key `k` (other buckets untouched). -/
def applyIntake (l : LogEntry) (k : Int) (d : IntakeDay) : IntakeDay :=
  if d.timestamp == k then
    { d with
      feeding := if l.category == .feeding then d.feeding + l.value else d.feeding
      saline := if l.category == .saline then d.saline + l.value else d.saline }
  else d

/-- One iteration of the `logs.forEach` bucketing loop of `dailyIntakeData`:
for a feeding or saline log, ensure a zero-initialised bucket exists for the
log's day key (`dailyMap.set` appends in insertion order, as a JS `Map`
does), then add the log's value to that bucket's matching category sum. -/
def addIntakeLog (dayKey : Int → Int) (m : List IntakeDay) (l : LogEntry) :
    List IntakeDay :=
  if isIntakeCat l.category then
    let k := dayKey l.timestamp
    (if m.any (fun d => d.timestamp == k) then m
     else m ++ [{ timestamp := k, feeding := 0, saline := 0 }]).map
      (applyIntake l k)
  else m

/-- Ascending-by-timestamp insertion (day keys are pairwise distinct, so the
comparator `(a, b) => a.timestamp - b.timestamp` determines the sorted order
uniquely). -/
def insertAsc (d : IntakeDay) : List IntakeDay → List IntakeDay
  | [] => [d]
  | x :: xs => if d.timestamp ≤ x.timestamp then d :: x :: xs else x :: insertAsc d xs

/-- Sorting the bucket list ascending by timestamp, modelling
`.sort((a, b) => a.timestamp - b.timestamp)`. -/
def sortAscByTimestamp : List IntakeDay → List IntakeDay
  | [] => []
  | x :: xs => insertAsc x (sortAscByTimestamp xs)

/-- The `dailyIntakeData` computation from `src/components/Charts.tsx`, with
the local-midnight day-key computation
`new Date(y, m, d).getTime()` passed explicitly as `dayKey`:

```js
const dailyMap = new Map();
logs.forEach(log => { ...bucket by dateKey, sum per category... });
return Array.from(dailyMap.values())
  .sort((a, b) => a.timestamp - b.timestamp)
  .slice(-7); // Show last 7 active days
```

`slice(-7)` keeps the last seven elements (all of them when fewer exist),
modelled by dropping all but the last seven. -/
def dailyIntakeData (dayKey : Int → Int) (logs : List LogEntry) : List IntakeDay :=
  let sorted := sortAscByTimestamp (logs.foldl (addIntakeLog dayKey) [])
  sorted.drop (sorted.length - 7)

/-- A day key is populated when some feeding or saline entry of the log list
falls on that local calendar day. -/
def populatedDay (dayKey : Int → Int) (logs : List LogEntry) (k : Int) : Prop :=
  ∃ l ∈ logs, isIntakeCat l.category = true ∧ dayKey l.timestamp = k

/-- Specification-side per-day sum: the sum of the values of the entries of
category `cat` whose local calendar day is `k`. -/
def categoryDaySum (dayKey : Int → Int) (cat : LogCategory) (k : Int)
    (logs : List LogEntry) : ℚ :=
  ((logs.filter (fun l => l.category == cat && dayKey l.timestamp == k)).map
    (fun l => l.value)).sum

/-- Invariant of the bucketing fold: every bucket carries exactly the per-day
per-category sums of the processed prefix, and the bucket keys are exactly
the populated day keys of the prefix. -/
def BucketsInv (dayKey : Int → Int) (P : List LogEntry) (m : List IntakeDay) :
    Prop :=
  (∀ d ∈ m,
      d.feeding = categoryDaySum dayKey .feeding d.timestamp P ∧
        d.saline = categoryDaySum dayKey .saline d.timestamp P) ∧
    (∀ k, populatedDay dayKey P k ↔ ∃ d ∈ m, d.timestamp = k)

/-- The fallback reply from the Gemini service when the API answers with no
text (`response.text || ...`). -/
def geminiEmptyReplyMsg : String := "抱歉，我現在無法回答。請稍後再試。"

/-- The fixed Traditional-Chinese error string the Gemini service returns when
the remote call throws. -/
def geminiConnectionErrorMsg : String := "發生連線錯誤，請檢查您的網路或 API Key。"

/-- The `sendMessageToGemini` function from the Gemini service file:

```js
try {
  const response = await chat.sendMessage({ message });
  return response.text || "抱歉，我現在無法回答。請稍後再試。";
} catch (error) {
  console.error("Gemini API Error:", error);
  return "發生連線錯誤，請檢查您的網路或 API Key。";
}
```

The outcomes of the (side-effecting) remote calls are modelled as an oracle
`attemptResult`, mapping the n-th remote attempt for this message to either a
thrown error (`.error`) or a response whose `text` field is `undefined`
(`.ok none`) or a string (`.ok (some t)`; the empty string is falsy, so it
also triggers the fallback).  The source awaits `chat.sendMessage` exactly
once, so only attempt `0` is consulted; the Lean function being total
reflects that the `try`/`catch` lets no exception propagate. -/
def sendMessageToGemini (attemptResult : Nat → Except Unit (Option String)) : String :=
  match attemptResult 0 with
  | .error _ => geminiConnectionErrorMsg
  | .ok none => geminiEmptyReplyMsg
  | .ok (some t) => if t = "" then geminiEmptyReplyMsg else t

end CatCare

namespace CatCare

/-- Merging the full serialization of a settings object over any base gives
back exactly that settings object. -/
theorem mergeSettings_settingsToPatch (base st : AppSettings) :
    mergeSettings base (settingsToPatch st) = st := rfl

/-- Claim C2: importing a file whose content fails to parse as JSON leaves the
whole application state (entry list and settings) unchanged and alerts the
import-failure message, which differs from the success message. -/
theorem import_parse_failure_preserves_state (s : AppState) :
    handleImportData (.error ()) s = (s, importFailureMsg) ∧
      importFailureMsg ≠ importSuccessMsg :=
  ⟨rfl, by decide⟩

/-- Claim C3: exporting any state and importing the exported document into any
state reproduces the exported state exactly; the resulting settings are the
pre-export settings merged over the defaults, which (the export serializing
every field) equal the pre-export settings. -/
theorem export_import_roundtrip (s t : AppState) :
    (handleImportData (.ok (handleExportData s)) t).1 = s ∧
      (handleImportData (.ok (handleExportData s)) t).1.settings =
        mergeSettings DEFAULT_SETTINGS (settingsToPatch s.settings) :=
  ⟨rfl, rfl⟩

/-- Claim C1, counterexample: a parsed document whose `entries` key is present
(holding a nonempty entry list) and whose `logs` key is absent does not
replace the Entry Store — the import reports success yet leaves the entry
list unchanged, contradicting "replaced wholesale exactly when the parsed
document contains an `entries` key". -/
theorem import_ignores_entries_key :
    (handleImportData
        (.ok { entries := .value
                  [{ id := "1", timestamp := 0, category := .glucose,
                     value := 100, unit := "mg/dL", note := "" }],
               logs := .absent, settings := .absent })
        { logs := [], settings := DEFAULT_SETTINGS }).1.logs = [] ∧
      ([] : List LogEntry) ≠
        [{ id := "1", timestamp := 0, category := .glucose,
           value := 100, unit := "mg/dL", note := "" }] :=
  ⟨rfl, by simp⟩

/-- Claim C1, amended: for every import whose text parses as JSON, the Entry
Store is replaced wholesale exactly when the parsed document's `logs` key
holds a truthy value (an array; its value becoming the new entry list), and
the Settings Store is merged over defaults exactly when the `settings` key
holds a truthy value (an object); an absent or `null` key leaves the
respective store unchanged. -/
theorem import_replaces_on_truthy_logs_and_settings (d : ImportDoc)
    (s : AppState) :
    (handleImportData (.ok d) s).1.logs =
        (match d.logs with
         | .value l => l
         | .null => s.logs
         | .absent => s.logs) ∧
      (handleImportData (.ok d) s).1.settings =
        (match d.settings with
         | .value p => mergeSettings DEFAULT_SETTINGS p
         | .null => s.settings
         | .absent => s.settings) := by
  cases d with
  | mk dl de ds =>
    cases dl <;> cases ds <;> exact ⟨rfl, rfl⟩

/-- Claim C9: when an imported document's `logs` key holds an array, the Entry
Store afterwards is exactly that array — same elements, same order, no
re-sorting, filtering, or per-entry validation; in particular importing an
array that is not in descending-timestamp order leaves the store out of
order, so import does not re-establish the sort invariant. -/
theorem import_logs_verbatim :
    (∀ (l : List LogEntry) (d : ImportDoc) (s : AppState),
        d.logs = .value l → (handleImportData (.ok d) s).1.logs = l) ∧
      ¬ SortedDesc
          (handleImportData
              (.ok { logs := .value
                        [{ id := "a", timestamp := 0, category := .feeding,
                           value := 10, unit := "ml", note := "" },
                         { id := "b", timestamp := 5, category := .feeding,
                           value := 20, unit := "ml", note := "" }] })
              { logs := [], settings := DEFAULT_SETTINGS }).1.logs := by
  constructor
  · intro l d s h
    cases d with
    | mk dl de ds =>
      cases h
      cases ds <;> rfl
  · intro h
    simp only [SortedDesc, handleImportData, List.chain'_cons,
      List.chain'_singleton, and_true] at h
    omega

/-- Claim C9, witness: importing a concrete two-element unsorted array yields
exactly that array. -/
theorem import_logs_verbatim_witness :
    (handleImportData
        (.ok { logs := .value
                  [{ id := "a", timestamp := 0, category := .feeding,
                     value := 10, unit := "ml", note := "" },
                   { id := "b", timestamp := 5, category := .feeding,
                     value := 20, unit := "ml", note := "" }] })
        { logs := [], settings := DEFAULT_SETTINGS }).1.logs =
      [{ id := "a", timestamp := 0, category := .feeding,
         value := 10, unit := "ml", note := "" },
       { id := "b", timestamp := 5, category := .feeding,
         value := 20, unit := "ml", note := "" }] :=
  import_logs_verbatim.1 _ _ _ rfl

/-- Claim C6: `getStatusColor` is a pure function of category, value and
settings (it takes exactly those inputs); with the default settings
(glucoseLow = 70, glucoseHigh = 250, ketoneDanger = 1.5), glucose 65
classifies as the low colour, glucose 150 as the normal colour, and ketone
1.6 as the danger colour, in both the text and background renderings. -/
theorem statusColor_default_classifications :
    getStatusColor DEFAULT_SETTINGS .glucose 65 false = "text-red-600" ∧
      getStatusColor DEFAULT_SETTINGS .glucose 150 false = "text-blue-600" ∧
      getStatusColor DEFAULT_SETTINGS .ketone 1.6 false = "text-red-600" ∧
      getStatusColor DEFAULT_SETTINGS .glucose 65 true =
        "bg-red-50 border-red-100 text-red-700" ∧
      getStatusColor DEFAULT_SETTINGS .glucose 150 true =
        "bg-white border-gray-100" ∧
      getStatusColor DEFAULT_SETTINGS .ketone 1.6 true =
        "bg-red-50 border-red-100 text-red-700" := by
  norm_num [getStatusColor, DEFAULT_SETTINGS]

/-- Claim C10, counterexample: with settings glucoseLow = 300 and
glucoseHigh = 250 (accepted unvalidated by the Settings Store), a glucose
value exactly equal to glucoseLow is classified as the high colour, not the
normal colour, refuting the claim as stated for arbitrary configured
thresholds. -/
theorem statusColor_glucoseLow_not_normal :
    getStatusColor
        { glucoseLow := 300, glucoseHigh := 250, ketoneWarning := 0.6,
          ketoneDanger := 1.5, dailyFeedingTarget := 0, dailySalineTarget := 0 }
        .glucose 300 false = "text-orange-600" ∧
      "text-orange-600" ≠ "text-blue-600" := by
  constructor
  · norm_num [getStatusColor]
  · decide

/-- Claim C10, amended: provided the configured thresholds satisfy
glucoseLow ≤ glucoseHigh, `getStatusColor` uses strict comparisons for
glucose and inclusive comparisons for ketone: a glucose value exactly equal
to glucoseLow or to glucoseHigh is classified as normal, a ketone value
exactly equal to ketoneDanger is classified as danger, one exactly equal to
ketoneWarning (but below ketoneDanger) as warning, and every category other
than glucose and ketone gets the neutral default regardless of value and
settings. -/
theorem statusColor_boundary_comparisons (s : AppSettings)
    (h : s.glucoseLow ≤ s.glucoseHigh) :
    getStatusColor s .glucose s.glucoseLow false = "text-blue-600" ∧
      getStatusColor s .glucose s.glucoseHigh false = "text-blue-600" ∧
      getStatusColor s .ketone s.ketoneDanger false = "text-red-600" ∧
      (s.ketoneWarning < s.ketoneDanger →
        getStatusColor s .ketone s.ketoneWarning false = "text-orange-600") ∧
      (∀ (s' : AppSettings) (v : ℚ) (c : LogCategory),
        c ≠ .glucose → c ≠ .ketone → getStatusColor s' c v false = "text-gray-700") := by
  refine ⟨?_, ?_, ?_, ?_, ?_⟩
  · simp [getStatusColor, lt_irrefl, not_lt.mpr h]
  · simp [getStatusColor, not_lt.mpr h, lt_irrefl]
  · simp [getStatusColor, le_refl]
  · intro hw
    simp [getStatusColor, not_le.mpr hw, le_refl]
  · intro s' v c hg hk
    cases c with
    | glucose => exact absurd rfl hg
    | ketone => exact absurd rfl hk
    | feeding => rfl
    | saline => rfl
    | meds => rfl

/-- Claim C10, witness: with the default settings (which satisfy
glucoseLow ≤ glucoseHigh), a glucose value exactly equal to the configured
glucoseLow is classified as normal. -/
theorem statusColor_boundary_comparisons_witness :
    getStatusColor DEFAULT_SETTINGS .glucose DEFAULT_SETTINGS.glucoseLow false =
      "text-blue-600" :=
  (statusColor_boundary_comparisons DEFAULT_SETTINGS (by norm_num [DEFAULT_SETTINGS])).1

/-- Folding value-accumulation over a list equals the initial accumulator plus
the sum of the values. -/
theorem foldl_add_value (l : List LogEntry) (init : ℚ) :
    l.foldl (fun acc curr => acc + curr.value) init =
      init + (l.map (fun c => c.value)).sum := by
  induction l generalizing init with
  | nil => simp
  | cons x xs ih => simp [ih, add_assoc]

/-- Claim C5: `getDailyTotal cat` equals the sum of `value` over exactly those
entries whose category matches and whose timestamp is at least the local
midnight bound; an entry of an earlier day contributes nothing even when its
category matches, and when no entry qualifies the total is 0. -/
theorem dailyTotal_spec (logs : List LogEntry) (cat : LogCategory)
    (startOfDay : Int) :
    getDailyTotal logs cat startOfDay =
      ((logs.filter
          (fun l => l.category == cat && decide (startOfDay ≤ l.timestamp))).map
        (fun l => l.value)).sum ∧
      (∀ l : LogEntry, l.timestamp < startOfDay →
        getDailyTotal (l :: logs) cat startOfDay =
          getDailyTotal logs cat startOfDay) ∧
      ((∀ l ∈ logs, ¬(l.category = cat ∧ startOfDay ≤ l.timestamp)) →
        getDailyTotal logs cat startOfDay = 0) := by
  refine ⟨?_, ?_, ?_⟩
  · simp [getDailyTotal, foldl_add_value]
  · intro l hl
    have : ¬ startOfDay ≤ l.timestamp := not_le.mpr hl
    simp [getDailyTotal, List.filter_cons, this]
  · intro hnone
    have hfil : logs.filter
        (fun l => l.category == cat && decide (startOfDay ≤ l.timestamp)) = [] := by
      rw [List.filter_eq_nil_iff]
      intro a ha
      have := hnone a ha
      simp only [Bool.and_eq_true, beq_iff_eq, decide_eq_true_eq]
      intro hcontra
      exact this hcontra
    simp [getDailyTotal, hfil]

/-- Claim C5, witness: on the empty entry list (where no entry qualifies) the
daily total is 0. -/
theorem dailyTotal_spec_witness :
    getDailyTotal [] LogCategory.glucose 0 = 0 :=
  (dailyTotal_spec [] .glucose 0).2.2 (by simp)

/-- Membership in the result of a descending insertion. -/
theorem mem_insertDesc (e x : LogEntry) (l : List LogEntry) :
    x ∈ insertDesc e l ↔ x = e ∨ x ∈ l := by
  induction l with
  | nil => simp [insertDesc]
  | cons y ys ih =>
    by_cases h : y.timestamp ≤ e.timestamp
    · simp [insertDesc, h]
    · simp [insertDesc, h, ih]
      tauto

/-- Descending insertion preserves pairwise descending order. -/
theorem pairwise_insertDesc (e : LogEntry) (l : List LogEntry)
    (hl : l.Pairwise (fun a b => b.timestamp ≤ a.timestamp)) :
    (insertDesc e l).Pairwise (fun a b => b.timestamp ≤ a.timestamp) := by
  induction l with
  | nil => simp [insertDesc]
  | cons x xs ih =>
    rcases List.pairwise_cons.mp hl with ⟨hx, hxs⟩
    by_cases h : x.timestamp ≤ e.timestamp
    · rw [insertDesc, if_pos h]
      refine List.pairwise_cons.mpr ⟨?_, hl⟩
      intro b hb
      rcases List.mem_cons.mp hb with hb | hb
      · subst hb
        exact h
      · exact le_trans (hx b hb) h
    · rw [insertDesc, if_neg h]
      refine List.pairwise_cons.mpr ⟨?_, ih hxs⟩
      intro b hb
      rcases (mem_insertDesc e b xs).mp hb with hb | hb
      · subst hb
        exact le_of_not_le h
      · exact hx b hb

/-- The descending sort always produces a pairwise-descending list. -/
theorem pairwise_sortByTimestampDesc (l : List LogEntry) :
    (sortByTimestampDesc l).Pairwise (fun a b => b.timestamp ≤ a.timestamp) := by
  induction l with
  | nil => simp [sortByTimestampDesc]
  | cons x xs ih => exact pairwise_insertDesc x _ ih

/-- Claim C4: whenever the save-log handler actually adds an entry (a category
is selected and the value field is non-empty), the resulting entry list is
sorted descending by timestamp: for all adjacent pairs the earlier element's
timestamp is at least the later element's — whatever the order of the
previous list. -/
theorem saveLog_sorted (cat : LogCategory) (inputValue newId : String)
    (entryTimestamp : Int) (parsedValue : ℚ) (inputNote : String)
    (logs : List LogEntry) (h : inputValue ≠ "") :
    SortedDesc (handleSaveLog (some cat) inputValue newId entryTimestamp
      parsedValue inputNote logs) := by
  simp only [handleSaveLog, if_neg h]
  exact (pairwise_sortByTimestampDesc _).chain'

/-- Claim C4, witness: saving a concrete glucose entry on the empty list
yields a sorted list. -/
theorem saveLog_sorted_witness :
    SortedDesc (handleSaveLog (some .glucose) "65" "1700000000000"
      1700000000000 65 "" []) :=
  saveLog_sorted .glucose "65" "1700000000000" 1700000000000 65 "" [] (by decide)

/-- Claim C8: the chat send operation makes exactly one remote attempt per
user message and never propagates an exception: when attempt 0 throws, it
returns the fixed Traditional-Chinese connection-error string in place of a
model reply, and its result depends only on attempt 0 (no retry consults any
later attempt). -/
theorem sendMessage_single_attempt_error_handling :
    (∀ api : Nat → Except Unit (Option String),
        api 0 = .error () → sendMessageToGemini api = geminiConnectionErrorMsg) ∧
      (∀ api api' : Nat → Except Unit (Option String),
        api 0 = api' 0 → sendMessageToGemini api = sendMessageToGemini api') := by
  constructor
  · intro api h
    simp [sendMessageToGemini, h]
  · intro api api' h
    simp [sendMessageToGemini, h]

/-- Claim C8, witness: when the single remote attempt throws, the concrete
error string is returned. -/
theorem sendMessage_single_attempt_witness :
    sendMessageToGemini (fun _ => .error ()) = geminiConnectionErrorMsg :=
  sendMessage_single_attempt_error_handling.1 (fun _ => .error ()) rfl

/-- Characterisation of the intake-category test. -/
theorem isIntakeCat_iff (c : LogCategory) :
    isIntakeCat c = true ↔ c = .feeding ∨ c = .saline := by
  cases c <;> simp [isIntakeCat]

/-- Applying an intake log never changes a bucket's day key. -/
theorem timestamp_applyIntake (l : LogEntry) (k : Int) (d : IntakeDay) :
    (applyIntake l k d).timestamp = d.timestamp := by
  unfold applyIntake
  split <;> rfl

/-- Applying an intake log leaves buckets of other day keys untouched. -/
theorem applyIntake_of_ne (l : LogEntry) (k : Int) (d : IntakeDay)
    (h : d.timestamp ≠ k) : applyIntake l k d = d := by
  simp [applyIntake, h]

/-- Appending one log to the processed prefix adds its value to the per-day
sum of its own category and day, and to nothing else. -/
theorem categoryDaySum_append_single (dayKey : Int → Int) (cat : LogCategory)
    (k : Int) (P : List LogEntry) (l : LogEntry) :
    categoryDaySum dayKey cat k (P ++ [l]) =
      categoryDaySum dayKey cat k P +
        (if l.category = cat ∧ dayKey l.timestamp = k then l.value else 0) := by
  by_cases h1 : l.category = cat <;> by_cases h2 : dayKey l.timestamp = k <;>
    simp [categoryDaySum, List.filter_append, List.filter_cons, h1, h2]

/-- A day key with no feeding or saline entry has per-day sum 0 in either
intake category. -/
theorem categoryDaySum_eq_zero (dayKey : Int → Int) (cat : LogCategory)
    (hcat : isIntakeCat cat = true) (k : Int) (P : List LogEntry)
    (h : ¬ populatedDay dayKey P k) : categoryDaySum dayKey cat k P = 0 := by
  have hfil : P.filter (fun l => l.category == cat && dayKey l.timestamp == k) = [] := by
    rw [List.filter_eq_nil_iff]
    intro a ha hp
    simp only [Bool.and_eq_true, beq_iff_eq] at hp
    exact h ⟨a, ha, by rw [hp.1]; exact hcat, hp.2⟩
  simp [categoryDaySum, hfil]

/-- Appending one log extends the populated day keys by that log's day key
exactly when the log is a feeding or saline entry. -/
theorem populatedDay_append_single (dayKey : Int → Int) (P : List LogEntry)
    (l : LogEntry) (k : Int) :
    populatedDay dayKey (P ++ [l]) k ↔
      populatedDay dayKey P k ∨
        (isIntakeCat l.category = true ∧ dayKey l.timestamp = k) := by
  simp only [populatedDay, List.mem_append, List.mem_singleton]
  constructor
  · rintro ⟨a, ha | ha, hi, hk⟩
    · exact Or.inl ⟨a, ha, hi, hk⟩
    · subst ha
      exact Or.inr ⟨hi, hk⟩
  · rintro (⟨a, ha, hi, hk⟩ | ⟨hi, hk⟩)
    · exact ⟨a, Or.inl ha, hi, hk⟩
    · exact ⟨l, Or.inr rfl, hi, hk⟩

/-- One step of the bucketing fold preserves the bucket invariant. -/
theorem bucketsInv_step (dayKey : Int → Int) (P : List LogEntry)
    (m : List IntakeDay) (l : LogEntry) (h : BucketsInv dayKey P m) :
    BucketsInv dayKey (P ++ [l]) (addIntakeLog dayKey m l) := by
  obtain ⟨hsum, hpop⟩ := h
  by_cases hcat : isIntakeCat l.category = true
  · rw [addIntakeLog, if_pos hcat]
    have hcat' := (isIntakeCat_iff l.category).mp hcat
    -- the contribution of `l` to a bucket at its own day key
    have hupd : ∀ d : IntakeDay, d.timestamp = dayKey l.timestamp →
        d.feeding = categoryDaySum dayKey .feeding d.timestamp P →
        d.saline = categoryDaySum dayKey .saline d.timestamp P →
        (applyIntake l (dayKey l.timestamp) d).feeding =
            categoryDaySum dayKey .feeding d.timestamp (P ++ [l]) ∧
          (applyIntake l (dayKey l.timestamp) d).saline =
            categoryDaySum dayKey .saline d.timestamp (P ++ [l]) := by
      intro d hdk hf hs
      rcases hcat' with hc | hc <;>
        simp [applyIntake, hdk, hf, hs, categoryDaySum_append_single, hc,
          LogEntry.value]
    constructor
    · -- every bucket of the result carries the sums over `P ++ [l]`
      intro d' hd'
      rcases List.mem_map.mp hd' with ⟨d, hd, rfl⟩
      by_cases hne : d.timestamp = dayKey l.timestamp
      · -- the bucket at the log's day key
        have hdm : d.feeding = categoryDaySum dayKey .feeding d.timestamp P ∧
            d.saline = categoryDaySum dayKey .saline d.timestamp P := by
          rcases (by assumption : d ∈
              (if m.any (fun b => b.timestamp == dayKey l.timestamp) then m
               else m ++ [{ timestamp := dayKey l.timestamp, feeding := 0,
                            saline := 0 }])) with hd
          by_cases hany : m.any (fun b => b.timestamp == dayKey l.timestamp) = true
          · exact hsum d (by rwa [if_pos hany] at hd)
          · rw [if_neg hany, List.mem_append, List.mem_singleton] at hd
            rcases hd with hd | rfl
            · exact hsum d hd
            · -- the freshly inserted zero bucket: its day key was unpopulated
              have hnp : ¬ populatedDay dayKey P (dayKey l.timestamp) := by
                intro hpd
                rcases (hpop _).mp hpd with ⟨b, hb, hbk⟩
                exact hany (List.any_eq_true.mpr ⟨b, hb, by simp [hbk]⟩)
              constructor
              · simpa using
                  (categoryDaySum_eq_zero dayKey .feeding (by decide) _ P hnp).symm
              · simpa using
                  (categoryDaySum_eq_zero dayKey .saline (by decide) _ P hnp).symm
        have := hupd d hne hdm.1 hdm.2
        simpa [timestamp_applyIntake] using this
      · -- buckets of other day keys are untouched and their sums unchanged
        rw [applyIntake_of_ne l _ d hne]
        have hd0 : d ∈ m := by
          by_cases hany : m.any (fun b => b.timestamp == dayKey l.timestamp) = true
          · rwa [if_pos hany] at hd
          · rw [if_neg hany, List.mem_append, List.mem_singleton] at hd
            rcases hd with hd | rfl
            · exact hd
            · exact absurd rfl hne
        have := hsum d hd0
        have hcond : ¬ dayKey l.timestamp = d.timestamp := fun hh => hne hh.symm
        refine ⟨?_, ?_⟩ <;>
          rw [categoryDaySum_append_single] <;>
          simp [this.1, this.2, hcond]
    · -- the result's keys are exactly the populated days of `P ++ [l]`
      intro k
      rw [populatedDay_append_single]
      constructor
      · rintro (hpk | ⟨_, hk⟩)
        · rcases (hpop k).mp hpk with ⟨d, hd, hdk⟩
          refine ⟨applyIntake l (dayKey l.timestamp) d, List.mem_map_of_mem _ ?_,
            by rw [timestamp_applyIntake]; exact hdk⟩
          by_cases hany : m.any (fun b => b.timestamp == dayKey l.timestamp) = true
          · rw [if_pos hany]; exact hd
          · rw [if_neg hany]; exact List.mem_append_left _ hd
        · subst hk
          by_cases hany : m.any (fun b => b.timestamp == dayKey l.timestamp) = true
          · rcases List.any_eq_true.mp hany with ⟨d, hd, hdk⟩
            refine ⟨applyIntake l (dayKey l.timestamp) d, List.mem_map_of_mem _ ?_,
              by rw [timestamp_applyIntake]; exact beq_iff_eq.mp hdk⟩
            rw [if_pos hany]; exact hd
          · refine ⟨applyIntake l (dayKey l.timestamp)
              { timestamp := dayKey l.timestamp, feeding := 0, saline := 0 },
              List.mem_map_of_mem _ ?_, by rw [timestamp_applyIntake]⟩
            rw [if_neg hany]
            exact List.mem_append_right _ (List.mem_singleton.mpr rfl)
      · rintro ⟨d', hd', hk⟩
        rcases List.mem_map.mp hd' with ⟨d, hd, rfl⟩
        rw [timestamp_applyIntake] at hk
        by_cases hany : m.any (fun b => b.timestamp == dayKey l.timestamp) = true
        · rw [if_pos hany] at hd
          exact Or.inl ((hpop k).mpr ⟨d, hd, hk⟩)
        · rw [if_neg hany, List.mem_append, List.mem_singleton] at hd
          rcases hd with hd | rfl
          · exact Or.inl ((hpop k).mpr ⟨d, hd, hk⟩)
          · exact Or.inr ⟨hcat, hk⟩
  · rw [addIntakeLog, if_neg hcat]
    have hf : l.category ≠ .feeding := fun hc => hcat (by simp [isIntakeCat, hc])
    have hs : l.category ≠ .saline := fun hc => hcat (by simp [isIntakeCat, hc])
    constructor
    · intro d hd
      have := hsum d hd
      refine ⟨?_, ?_⟩ <;> rw [categoryDaySum_append_single] <;>
        simp [this.1, this.2, hf, hs]
    · intro k
      rw [populatedDay_append_single]
      constructor
      · rintro (hpk | ⟨hi, _⟩)
        · exact (hpop k).mp hpk
        · exact absurd hi hcat
      · intro hex
        exact Or.inl ((hpop k).mpr hex)

/-- The bucket invariant holds along the whole bucketing fold. -/
theorem bucketsInv_foldl (dayKey : Int → Int) (logs : List LogEntry) :
    ∀ (P : List LogEntry) (m : List IntakeDay), BucketsInv dayKey P m →
      BucketsInv dayKey (P ++ logs) (logs.foldl (addIntakeLog dayKey) m) := by
  induction logs with
  | nil => intro P m h; simpa using h
  | cons l ls ih =>
    intro P m h
    have h1 := bucketsInv_step dayKey P m l h
    have h2 := ih (P ++ [l]) (addIntakeLog dayKey m l) h1
    simpa [List.append_assoc] using h2

/-- The bucket invariant for the empty prefix and empty bucket list. -/
theorem bucketsInv_nil (dayKey : Int → Int) : BucketsInv dayKey [] [] := by
  constructor
  · intro d hd
    simp at hd
  · intro k
    simp [populatedDay]

/-- Membership in the result of an ascending insertion. -/
theorem mem_insertAsc (e x : IntakeDay) (l : List IntakeDay) :
    x ∈ insertAsc e l ↔ x = e ∨ x ∈ l := by
  induction l with
  | nil => simp [insertAsc]
  | cons y ys ih =>
    by_cases h : e.timestamp ≤ y.timestamp
    · simp [insertAsc, h]
    · simp [insertAsc, h, ih]
      tauto

/-- Ascending insertion preserves pairwise ascending order. -/
theorem pairwise_insertAsc (e : IntakeDay) (l : List IntakeDay)
    (hl : l.Pairwise (fun a b => a.timestamp ≤ b.timestamp)) :
    (insertAsc e l).Pairwise (fun a b => a.timestamp ≤ b.timestamp) := by
  induction l with
  | nil => simp [insertAsc]
  | cons x xs ih =>
    rcases List.pairwise_cons.mp hl with ⟨hx, hxs⟩
    by_cases h : e.timestamp ≤ x.timestamp
    · rw [insertAsc, if_pos h]
      refine List.pairwise_cons.mpr ⟨?_, hl⟩
      intro b hb
      rcases List.mem_cons.mp hb with hb | hb
      · subst hb
        exact h
      · exact le_trans h (hx b hb)
    · rw [insertAsc, if_neg h]
      refine List.pairwise_cons.mpr ⟨?_, ih hxs⟩
      intro b hb
      rcases (mem_insertAsc e b xs).mp hb with hb | hb
      · subst hb
        exact le_of_not_le h
      · exact hx b hb

/-- The ascending sort always produces a pairwise-ascending list. -/
theorem pairwise_sortAscByTimestamp (l : List IntakeDay) :
    (sortAscByTimestamp l).Pairwise (fun a b => a.timestamp ≤ b.timestamp) := by
  induction l with
  | nil => simp [sortAscByTimestamp]
  | cons x xs ih => exact pairwise_insertAsc x _ ih

/-- The ascending sort neither adds nor removes elements. -/
theorem mem_sortAscByTimestamp (x : IntakeDay) (l : List IntakeDay) :
    x ∈ sortAscByTimestamp l ↔ x ∈ l := by
  induction l with
  | nil => simp [sortAscByTimestamp]
  | cons y ys ih =>
    simp [sortAscByTimestamp, mem_insertAsc, ih]

/-- Claim C7: `dailyIntakeData` returns at most 7 elements, ordered ascending
by calendar-day key; every element is a day populated by at least one feeding
or saline entry, its feeding sum is the sum of the values of the feeding
entries of that day and its saline sum the sum of the values of the saline
entries of that day; and whenever a populated day is missing from the result,
the result holds exactly 7 days and every one of them is at least as recent
as the missing day — only the most recent 7 populated days are kept. -/
theorem dailyIntake_props (dayKey : Int → Int) (logs : List LogEntry) :
    (dailyIntakeData dayKey logs).length ≤ 7 ∧
      (dailyIntakeData dayKey logs).Pairwise
        (fun a b => a.timestamp ≤ b.timestamp) ∧
      (∀ d ∈ dailyIntakeData dayKey logs,
        populatedDay dayKey logs d.timestamp ∧
          d.feeding = categoryDaySum dayKey .feeding d.timestamp logs ∧
          d.saline = categoryDaySum dayKey .saline d.timestamp logs) ∧
      (∀ k, populatedDay dayKey logs k →
        (∀ d ∈ dailyIntakeData dayKey logs, d.timestamp ≠ k) →
        (∀ d ∈ dailyIntakeData dayKey logs, k ≤ d.timestamp) ∧
          (dailyIntakeData dayKey logs).length = 7) := by
  obtain ⟨hsum, hpop⟩ :
      BucketsInv dayKey logs (logs.foldl (addIntakeLog dayKey) []) := by
    simpa using bucketsInv_foldl dayKey logs [] [] (bucketsInv_nil dayKey)
  have hpair := pairwise_sortAscByTimestamp (logs.foldl (addIntakeLog dayKey) [])
  have hres : dailyIntakeData dayKey logs =
      (sortAscByTimestamp (logs.foldl (addIntakeLog dayKey) [])).drop
        ((sortAscByTimestamp (logs.foldl (addIntakeLog dayKey) [])).length - 7) :=
    rfl
  refine ⟨?_, ?_, ?_, ?_⟩
  · rw [hres, List.length_drop]
    omega
  · rw [hres]
    exact hpair.sublist (List.drop_sublist _ _)
  · intro d hd
    rw [hres] at hd
    have hd1 : d ∈ sortAscByTimestamp (logs.foldl (addIntakeLog dayKey) []) :=
      List.mem_of_mem_drop hd
    have hd2 : d ∈ logs.foldl (addIntakeLog dayKey) [] :=
      (mem_sortAscByTimestamp d _).mp hd1
    exact ⟨(hpop d.timestamp).mpr ⟨d, hd2, rfl⟩, hsum d hd2⟩
  · intro k hk hmiss
    obtain ⟨d0, hd0b, hd0ts⟩ := (hpop k).mp hk
    have hd0s : d0 ∈ sortAscByTimestamp (logs.foldl (addIntakeLog dayKey) []) :=
      (mem_sortAscByTimestamp d0 _).mpr hd0b
    have hsplit :
        (sortAscByTimestamp (logs.foldl (addIntakeLog dayKey) [])).take
            ((sortAscByTimestamp (logs.foldl (addIntakeLog dayKey) [])).length - 7) ++
          (sortAscByTimestamp (logs.foldl (addIntakeLog dayKey) [])).drop
            ((sortAscByTimestamp (logs.foldl (addIntakeLog dayKey) [])).length - 7) =
          sortAscByTimestamp (logs.foldl (addIntakeLog dayKey) []) :=
      List.take_append_drop _ _
    have hd0take : d0 ∈ (sortAscByTimestamp (logs.foldl (addIntakeLog dayKey) [])).take
        ((sortAscByTimestamp (logs.foldl (addIntakeLog dayKey) [])).length - 7) := by
      rcases List.mem_append.mp (by rw [hsplit]; exact hd0s) with h | h
      · exact h
      · exact absurd hd0ts (hmiss d0 (by rw [hres]; exact h))
    have hpair2 := hpair
    rw [← hsplit, List.pairwise_append] at hpair2
    constructor
    · intro d hd
      rw [hres] at hd
      have := hpair2.2.2 d0 hd0take d hd
      rw [hd0ts] at this
      exact this
    · have hpos : 0 <
          ((sortAscByTimestamp (logs.foldl (addIntakeLog dayKey) [])).take
            ((sortAscByTimestamp (logs.foldl (addIntakeLog dayKey) [])).length - 7)).length :=
        List.length_pos_of_mem hd0take
      rw [List.length_take] at hpos
      rw [hres, List.length_drop]
      omega

/-- Eight single-feeding days used to exercise the daily-intake series. -/
def demoIntakeLogs : List LogEntry :=
  [{ id := "0", timestamp := 0, category := .feeding, value := 1, unit := "ml", note := "" },
   { id := "1", timestamp := 1, category := .feeding, value := 1, unit := "ml", note := "" },
   { id := "2", timestamp := 2, category := .feeding, value := 1, unit := "ml", note := "" },
   { id := "3", timestamp := 3, category := .feeding, value := 1, unit := "ml", note := "" },
   { id := "4", timestamp := 4, category := .feeding, value := 1, unit := "ml", note := "" },
   { id := "5", timestamp := 5, category := .feeding, value := 1, unit := "ml", note := "" },
   { id := "6", timestamp := 6, category := .feeding, value := 1, unit := "ml", note := "" },
   { id := "7", timestamp := 7, category := .feeding, value := 1, unit := "ml", note := "" }]

/-- Claim C7, witness: with eight populated days (day keys 0 through 7) and
day 0 missing from the series, the series keeps exactly 7 days, all at least
as recent as day 0. -/
theorem dailyIntake_props_witness :
    (∀ d ∈ dailyIntakeData (fun t => t) demoIntakeLogs, (0 : Int) ≤ d.timestamp) ∧
      (dailyIntakeData (fun t => t) demoIntakeLogs).length = 7 :=
  (dailyIntake_props (fun t => t) demoIntakeLogs).2.2.2 0
    ⟨{ id := "0", timestamp := 0, category := .feeding, value := 1, unit := "ml",
       note := "" },
      List.mem_cons_self _ _, rfl, rfl⟩
    (by decide)

end CatCare
